import Mathlib

set_option maxRecDepth 100000

/-!
Shallow embedding of the core data-handling utilities of the IGitt
repository: `LimitedSizeDict`, `Cache`, `PossiblyIncompleteDict`
(src/IGitt/Utils/__init__.py) and `Commit.get_keywords_issues`
(src/IGitt/Interfaces/Commit.py), with theorems settling the frozen
claims about them.

Python dictionaries are modelled as insertion-ordered association lists
(matching CPython's ordered dicts); JSON-like values as the inductive
type `Val`; machine-level details (hashing, timing) play no role in the
claims and are not modelled.
-/

/-- JSON-like values: the payloads handled by `Cache` and
`PossiblyIncompleteDict` (strings, numbers, booleans, null, objects,
arrays).  Objects are insertion-ordered association lists, as in
CPython. -/
inductive Val where
  | str  : String → Val
  | num  : Int → Val
  | bool : Bool → Val
  | null : Val
  | dict : List (String × Val) → Val
  | list : List Val → Val

/-- Python `elem.replace(chr(0), '')` on a string: removes every NUL
character (replacing a single-character pattern by the empty string is
exactly a filter). -/
def delNulStr (s : String) : String :=
  ⟨s.data.filter (fun c => c ≠ Char.ofNat 0)⟩

mutual
/-- `PossiblyIncompleteDict._del_nul`: strips NUL characters from
strings, recursively through dicts and lists; other values unchanged. -/
def delNulVal : Val → Val
  | .str s => .str (delNulStr s)
  | .num n => .num n
  | .bool b => .bool b
  | .null => .null
  | .dict l => .dict (delNulDict l)
  | .list l => .list (delNulList l)

def delNulDict : List (String × Val) → List (String × Val)
  | [] => []
  | (k, v) :: rest => (k, delNulVal v) :: delNulDict rest

def delNulList : List Val → List Val
  | [] => []
  | v :: rest => delNulVal v :: delNulList rest
end

/-- A string is NUL-free. -/
def noNulStr (s : String) : Bool :=
  s.data.all (fun c => c ≠ Char.ofNat 0)

mutual
/-- No string anywhere inside the value contains a NUL character. -/
def noNulVal : Val → Bool
  | .str s => noNulStr s
  | .num _ => true
  | .bool _ => true
  | .null => true
  | .dict l => noNulDict l
  | .list l => noNulList l

def noNulDict : List (String × Val) → Bool
  | [] => true
  | (_, v) :: rest => noNulVal v && noNulDict rest

def noNulList : List Val → Bool
  | [] => true
  | v :: rest => noNulVal v && noNulList rest
end

theorem noNulStr_delNulStr (s : String) : noNulStr (delNulStr s) = true := by
  simp [noNulStr, delNulStr, List.all_eq_true]

mutual
theorem noNulVal_delNulVal : ∀ v : Val, noNulVal (delNulVal v) = true
  | .str s => noNulStr_delNulStr s
  | .num _ => rfl
  | .bool _ => rfl
  | .null => rfl
  | .dict l => noNulDict_delNulDict l
  | .list l => noNulList_delNulList l

theorem noNulDict_delNulDict :
    ∀ l : List (String × Val), noNulDict (delNulDict l) = true
  | [] => rfl
  | (_, v) :: rest => by
      simp only [delNulDict, noNulDict, Bool.and_eq_true]
      exact ⟨noNulVal_delNulVal v, noNulDict_delNulDict rest⟩

theorem noNulList_delNulList :
    ∀ l : List Val, noNulList (delNulList l) = true
  | [] => rfl
  | v :: rest => by
      simp only [delNulList, noNulList, Bool.and_eq_true]
      exact ⟨noNulVal_delNulVal v, noNulList_delNulList rest⟩
end

section DictOps

variable {K V : Type} [DecidableEq K]

/-- Lookup of a key in an ordered association list (first occurrence),
modelling `item[k]` / `k in item` on a Python dict. -/
def dlookup (k : K) : List (K × V) → Option V
  | [] => none
  | (k', v) :: rest => if k' = k then some v else dlookup k rest

/-- Python dict assignment `d[k] = v`: replaces the value in place if
the key is present (keeping its position), otherwise appends at the
end. -/
def dset (l : List (K × V)) (k : K) (v : V) : List (K × V) :=
  match l with
  | [] => [(k, v)]
  | (k', v') :: rest =>
      if k' = k then (k, v) :: rest else (k', v') :: dset rest k v

/-- Python `k in d`. -/
def hasKey (l : List (K × V)) (k : K) : Bool :=
  (dlookup k l).isSome

theorem dlookup_dset_self (l : List (K × V)) (k : K) (v : V) :
    dlookup k (dset l k v) = some v := by
  induction l with
  | nil => simp [dset, dlookup]
  | cons p rest ih =>
      obtain ⟨k', v'⟩ := p
      by_cases h : k' = k
      · simp [dset, dlookup, h]
      · simp [dset, dlookup, h, ih]

theorem dlookup_dset_ne (l : List (K × V)) (k k' : K) (v : V) (h : k' ≠ k) :
    dlookup k (dset l k' v) = dlookup k l := by
  induction l with
  | nil => simp [dset, dlookup, h]
  | cons p rest ih =>
      obtain ⟨k'', v''⟩ := p
      by_cases h2 : k'' = k'
      · subst h2
        simp [dset, dlookup, h]
      · simp only [dset, if_neg h2]
        by_cases h3 : k'' = k
        · simp [dlookup, h3]
        · simp [dlookup, h3, ih]

/-- Keys of the association list, in order. -/
def dkeys (l : List (K × V)) : List K := l.map Prod.fst

theorem dkeys_dset_of_mem (l : List (K × V)) (k : K) (v : V)
    (h : k ∈ dkeys l) : dkeys (dset l k v) = dkeys l := by
  induction l with
  | nil => simp [dkeys] at h
  | cons p rest ih =>
      obtain ⟨k', v'⟩ := p
      by_cases h2 : k' = k
      · simp [dset, dkeys, h2]
      · have hmem : k ∈ dkeys rest := by
          rcases (by simpa [dkeys] using h : k = k' ∨ k ∈ dkeys rest) with h' | h'
          · exact absurd h'.symm h2
          · exact h'
        have h3 := ih hmem
        simp only [dset, if_neg h2, dkeys, List.map_cons] at h3 ⊢
        rw [show List.map Prod.fst (dset rest k v) = List.map Prod.fst rest from h3]

theorem dset_of_not_mem (l : List (K × V)) (k : K) (v : V)
    (h : k ∉ dkeys l) : dset l k v = l ++ [(k, v)] := by
  induction l with
  | nil => simp [dset]
  | cons p rest ih =>
      obtain ⟨k', v'⟩ := p
      have h1 : k' ≠ k := fun hk => h (by simp [dkeys, hk])
      have h2 : k ∉ dkeys rest := fun hk => h (by
        simp [dkeys] at hk ⊢
        exact Or.inr hk)
      simp [dset, h1, ih h2]

end DictOps

section LimitedSize

variable {K V : Type} [DecidableEq K]

/-- `LimitedSizeDict`: an ordered dict together with its optional
`size_limit` (from `kwargs.pop('size_limit', None)`). -/
structure LimitedSizeDict (K V : Type) where
  size_limit : Option Nat
  entries : List (K × V)

/-- The `while self.size_limit < len(self): self.popitem(last=False)`
loop of `_check_size_limit`: pops from the front while the length
exceeds `n`. -/
def popWhileOver (n : Nat) : List (K × V) → List (K × V)
  | [] => []
  | p :: rest => if n < (p :: rest).length then popWhileOver n rest else p :: rest

/-- `LimitedSizeDict._check_size_limit`: a no-op when `size_limit` is
`None`, otherwise the popping loop. -/
def checkSizeLimit (limit : Option Nat) (l : List (K × V)) : List (K × V) :=
  match limit with
  | none => l
  | some n => popWhileOver n l

/-- `LimitedSizeDict.__setitem__`: ordinary ordered-dict assignment
followed by `_check_size_limit`. -/
def lsdSet (s : LimitedSizeDict K V) (k : K) (v : V) : LimitedSizeDict K V :=
  ⟨s.size_limit, checkSizeLimit s.size_limit (dset s.entries k v)⟩

/-- `LimitedSizeDict(size_limit=limit)` built empty. -/
def lsdEmpty (limit : Option Nat) : LimitedSizeDict K V := ⟨limit, []⟩

/-- A sequence of `__setitem__` calls. -/
def lsdSetAll (s : LimitedSizeDict K V) (l : List (K × V)) : LimitedSizeDict K V :=
  l.foldl (fun s p => lsdSet s p.1 p.2) s

theorem popWhileOver_of_le (n : Nat) (l : List (K × V)) (h : l.length ≤ n) :
    popWhileOver n l = l := by
  cases l with
  | nil => rfl
  | cons p rest => rw [popWhileOver, if_neg (Nat.not_lt.mpr h)]

theorem popWhileOver_eq_drop (n : Nat) (l : List (K × V)) :
    popWhileOver n l = l.drop (l.length - n) := by
  induction l with
  | nil => simp [popWhileOver]
  | cons p rest ih =>
      by_cases h : n < (p :: rest).length
      · rw [popWhileOver, if_pos h, ih]
        have hlen : (p :: rest).length - n = (rest.length - n) + 1 := by
          simp only [List.length_cons] at h ⊢
          omega
        rw [hlen]
        rfl
      · rw [popWhileOver, if_neg h]
        have hlen : (p :: rest).length - n = 0 := by
          simp only [List.length_cons] at h ⊢
          omega
        rw [hlen]
        rfl

theorem lsdSetAll_append (s : LimitedSizeDict K V) (l1 l2 : List (K × V)) :
    lsdSetAll s (l1 ++ l2) = lsdSetAll (lsdSetAll s l1) l2 := by
  simp [lsdSetAll, List.foldl_append]


theorem lsdSetAll_size_limit (s : LimitedSizeDict K V) (l : List (K × V)) :
    (lsdSetAll s l).size_limit = s.size_limit := by
  induction l generalizing s with
  | nil => rfl
  | cons p rest ih =>
      show (lsdSetAll (lsdSet s p.1 p.2) rest).size_limit = s.size_limit
      rw [ih]
      rfl

/-- Core FIFO lemma: starting from an empty dict with limit `c`,
inserting entries with pairwise-distinct keys leaves exactly the last
`c` of them, in order. -/
theorem lsdSetAll_fresh_entries (c : Nat) (entries : List (K × V))
    (hnodup : (entries.map Prod.fst).Nodup) :
    (lsdSetAll (lsdEmpty (some c)) entries).entries
      = entries.drop (entries.length - c) := by
  induction entries using List.reverseRecOn with
  | nil => simp [lsdSetAll, lsdEmpty]
  | append_singleton l x ih =>
      rw [List.map_append] at hnodup
      rcases List.nodup_append.mp hnodup with ⟨hnodup', _, hdisj⟩
      have hxl : x.1 ∉ l.map Prod.fst := by
        intro hmem
        exact hdisj hmem (by simp)
      have hent : (lsdSetAll (lsdEmpty (some c)) l).entries = l.drop (l.length - c) :=
        ih hnodup'
      have hxD : x.1 ∉ dkeys (lsdSetAll (lsdEmpty (some c)) l).entries := by
        rw [hent]
        intro hmem
        exact hxl (List.map_subset Prod.fst (List.drop_subset _ _) hmem)
      rw [lsdSetAll_append]
      show (lsdSet (lsdSetAll (lsdEmpty (some c)) l) x.1 x.2).entries = _
      rw [show ∀ s : LimitedSizeDict K V, ∀ k v, (lsdSet s k v).entries
            = checkSizeLimit s.size_limit (dset s.entries k v) from fun _ _ _ => rfl]
      rw [lsdSetAll_size_limit, dset_of_not_mem _ _ _ hxD, hent]
      show popWhileOver c (l.drop (l.length - c) ++ [x]) = _
      rw [popWhileOver_eq_drop]
      rw [← List.drop_append_of_le_length (Nat.sub_le l.length c)]
      rw [List.drop_drop]
      congr 1
      simp only [List.length_append, List.length_drop, List.length_cons,
        List.length_nil]
      omega

end LimitedSize

section MoreDictLemmas

variable {K V : Type} [DecidableEq K]

theorem mem_dkeys_dset_of_mem (l : List (K × V)) (k : K) (v : V) (k0 : K)
    (h : k0 ∈ dkeys l) : k0 ∈ dkeys (dset l k v) := by
  induction l with
  | nil => simp [dkeys] at h
  | cons p rest ih =>
      obtain ⟨k', v'⟩ := p
      by_cases h2 : k' = k
      · subst h2
        simp [dset, dkeys] at h ⊢
        exact h
      · simp [dset, dkeys, h2] at h ⊢
        rcases h with h | h
        · exact Or.inl h
        · exact Or.inr (by simpa [dkeys] using ih (by simpa [dkeys] using h))

theorem mem_dkeys_dset_self (l : List (K × V)) (k : K) (v : V) :
    k ∈ dkeys (dset l k v) := by
  induction l with
  | nil => simp [dset, dkeys]
  | cons p rest ih =>
      obtain ⟨k', v'⟩ := p
      by_cases h2 : k' = k
      · simp [dset, dkeys, h2]
      · simp [dset, dkeys, h2]
        exact Or.inr (by simpa [dkeys] using ih)

end MoreDictLemmas

theorem noNulVal_of_mem (l : List (String × Val)) (k : String) (v : Val)
    (hl : noNulDict l = true) (hmem : (k, v) ∈ l) : noNulVal v = true := by
  induction l with
  | nil => simp at hmem
  | cons p rest ih =>
      obtain ⟨k', v'⟩ := p
      simp only [noNulDict, Bool.and_eq_true] at hl
      rcases List.mem_cons.mp hmem with h | h
      · cases h
        exact hl.1
      · exact ih hl.2 h

theorem noNulDict_dset (l : List (String × Val)) (k : String) (v : Val)
    (hl : noNulDict l = true) (hv : noNulVal v = true) :
    noNulDict (dset l k v) = true := by
  induction l with
  | nil => simpa [dset, noNulDict] using hv
  | cons p rest ih =>
      obtain ⟨k', v'⟩ := p
      simp only [noNulDict, Bool.and_eq_true] at hl
      by_cases h2 : k' = k
      · simp only [dset, if_pos h2, noNulDict, Bool.and_eq_true]
        exact ⟨hv, hl.2⟩
      · simp only [dset, if_neg h2, noNulDict, Bool.and_eq_true]
        exact ⟨hl.1, ih hl.2⟩

/-- `PossiblyIncompleteDict`: the materialized data, the
`may_need_refresh` flag and the refresh callback (which returns raw
provider data, possibly containing NUL characters). -/
structure PossiblyIncompleteDict where
  may_need_refresh : Bool
  _data : List (String × Val)
  _refresh : Unit → List (String × Val)

namespace PossiblyIncompleteDict

/-- `__init__(data, refresh)`: seeds `_data` with `_del_nul(data)` and
starts with `may_need_refresh = True`. -/
def init (data : List (String × Val)) (refresh : Unit → List (String × Val)) :
    PossiblyIncompleteDict :=
  ⟨true, delNulDict data, refresh⟩

/-- `refresh()`: replaces `_data` wholesale with the sanitized result of
the callback and clears the flag. -/
def refresh (s : PossiblyIncompleteDict) : PossiblyIncompleteDict :=
  { s with _data := delNulDict (s._refresh ()), may_need_refresh := false }

/-- `maybe_refresh()`: refreshes only if `may_need_refresh`; the `Nat`
counts how many times the refresh callback was invoked. -/
def maybe_refresh (s : PossiblyIncompleteDict) : PossiblyIncompleteDict × Nat :=
  if s.may_need_refresh then (s.refresh, 1) else (s, 0)

/-- `__getitem__(item)`: return the field if present; otherwise
`maybe_refresh` and look again (`none` models the final `KeyError`).
Returns (result, new state, number of refresh-callback invocations). -/
def getitem (s : PossiblyIncompleteDict) (item : String) :
    Option Val × PossiblyIncompleteDict × Nat :=
  match dlookup item s._data with
  | some v => (some v, s, 0)
  | none =>
      (dlookup item (s.maybe_refresh).1._data, (s.maybe_refresh).1, (s.maybe_refresh).2)

/-- `__setitem__(key, item)`: writes the raw value directly into
`_data` (the source applies no sanitization here). -/
def setitem (s : PossiblyIncompleteDict) (key : String) (item : Val) :
    PossiblyIncompleteDict :=
  { s with _data := dset s._data key item }

/-- `__contains__`. -/
def contains (s : PossiblyIncompleteDict) (item : String) : Bool :=
  hasKey s._data item

/-- `update(value)`: `self._data.update(self._del_nul(value))`. -/
def update (s : PossiblyIncompleteDict) (value : List (String × Val)) :
    PossiblyIncompleteDict :=
  { s with _data := (delNulDict value).foldl (fun acc p => dset acc p.1 p.2) s._data }

/-- `get()`. -/
def get (s : PossiblyIncompleteDict) : List (String × Val) := s._data

end PossiblyIncompleteDict

/-- C1: once a refresh has run (`may_need_refresh` is false), a field
lookup via `__getitem__` never invokes the refresh callback; and two
consecutive reads of the same field invoke the callback at most once in
total. -/
theorem claim_C1_refresh_idempotent (s : PossiblyIncompleteDict) (k : String) :
    (s.may_need_refresh = false → (s.getitem k).2.2 = 0)
    ∧ (s.getitem k).2.2 + (((s.getitem k).2.1).getitem k).2.2 ≤ 1 := by
  cases h : dlookup k s._data with
  | some v =>
      constructor
      · intro _
        simp [PossiblyIncompleteDict.getitem, h]
      · simp [PossiblyIncompleteDict.getitem, h]
  | none =>
      cases hf : s.may_need_refresh with
      | false =>
          constructor
          · intro _
            simp [PossiblyIncompleteDict.getitem, PossiblyIncompleteDict.maybe_refresh, h, hf]
          · simp [PossiblyIncompleteDict.getitem, PossiblyIncompleteDict.maybe_refresh, h, hf]
      | true =>
          constructor
          · intro hfalse
            exact absurd hfalse (by simp [hf])
          · have h1 : s.getitem k = (dlookup k (s.refresh)._data, s.refresh, 1) := by
              simp [PossiblyIncompleteDict.getitem, PossiblyIncompleteDict.maybe_refresh, h, hf]
            have hflag : (s.refresh).may_need_refresh = false := rfl
            rw [h1]
            cases h2 : dlookup k (s.refresh)._data with
            | some v =>
                simp [PossiblyIncompleteDict.getitem, h2]
            | none =>
                simp [PossiblyIncompleteDict.getitem,
                  PossiblyIncompleteDict.maybe_refresh, h2, hflag]

/-- C1 witness: a concrete already-refreshed record; reading a field
invokes the refresh callback zero times. -/
theorem claim_C1_refresh_idempotent_witness :
    ((⟨false, [("a", Val.num 1)], fun _ => []⟩ :
        PossiblyIncompleteDict).may_need_refresh = false)
    ∧ ((⟨false, [("a", Val.num 1)], fun _ => []⟩ :
        PossiblyIncompleteDict).getitem "a").2.2 = 0 :=
  ⟨rfl, (claim_C1_refresh_idempotent ⟨false, [("a", Val.num 1)], fun _ => []⟩ "a").1 rfl⟩

/-- C5 counterexample: `__setitem__` stores its value unsanitized — a
string containing a NUL character is stored with the NUL intact
(`self._data[key] = item` applies no `_del_nul`), refuting the claim
that every write path strips NULs. -/
theorem claim_C5_counterexample :
    dlookup "k" ((PossiblyIncompleteDict.init [] (fun _ => [])).setitem
        "k" (Val.str "a\x00b"))._data = some (Val.str "a\x00b")
    ∧ noNulVal (Val.str "a\x00b") = false := by
  constructor
  · rfl
  · decide

/-- Operations on a `PossiblyIncompleteDict` other than `__setitem__`
(the sanitizing write paths, plus reads that may trigger a refresh). -/
inductive PidOp where
  | update (m : List (String × Val))
  | refresh
  | getitem (k : String)

/-- One step of `PidOp`. -/
def pidStep (s : PossiblyIncompleteDict) : PidOp → PossiblyIncompleteDict
  | .update m => s.update m
  | .refresh => s.refresh
  | .getitem k => (s.getitem k).2.1

theorem noNulDict_foldl_dset (m : List (String × Val)) (init : List (String × Val))
    (hinit : noNulDict init = true) (hm : noNulDict m = true) :
    noNulDict (m.foldl (fun acc p => dset acc p.1 p.2) init) = true := by
  induction m generalizing init with
  | nil => exact hinit
  | cons p rest ih =>
      obtain ⟨k, v⟩ := p
      simp only [noNulDict, Bool.and_eq_true] at hm
      exact ih _ (noNulDict_dset _ _ _ hinit hm.1) hm.2

/-- C5 amended: every write path except `__setitem__` sanitizes — any
state reachable from the constructor through `update`, `refresh` and
`__getitem__` has NUL-free data, whatever raw data the seed and refresh
callback supply. -/
theorem claim_C5_sanitized_paths (d : List (String × Val))
    (f : Unit → List (String × Val)) (ops : List PidOp) :
    noNulDict ((ops.foldl pidStep (PossiblyIncompleteDict.init d f))._data) = true := by
  have hstep : ∀ (s : PossiblyIncompleteDict), noNulDict s._data = true →
      ∀ op, noNulDict ((pidStep s op)._data) = true := by
    intro s hs op
    cases op with
    | update m =>
        exact noNulDict_foldl_dset _ _ hs (noNulDict_delNulDict m)
    | refresh =>
        exact noNulDict_delNulDict _
    | getitem k =>
        cases h : dlookup k s._data with
        | some v => simpa [pidStep, PossiblyIncompleteDict.getitem, h] using hs
        | none =>
            cases hf : s.may_need_refresh with
            | false =>
                simpa [pidStep, PossiblyIncompleteDict.getitem,
                  PossiblyIncompleteDict.maybe_refresh, h, hf] using hs
            | true =>
                simpa [pidStep, PossiblyIncompleteDict.getitem,
                  PossiblyIncompleteDict.maybe_refresh, h, hf] using
                  noNulDict_delNulDict (s._refresh ())
  have hgen : ∀ (s : PossiblyIncompleteDict), noNulDict s._data = true →
      noNulDict ((ops.foldl pidStep s)._data) = true := by
    induction ops with
    | nil => exact fun s hs => hs
    | cons op rest ih =>
        intro s hs
        exact ih _ (hstep s hs op)
  exact hgen _ (noNulDict_delNulDict d)

/-- C3: inserting `c + k` distinct keys into a `LimitedSizeDict` with
`size_limit = c ≥ 1` leaves exactly the last `c` inserted entries in
their original relative order; and re-setting an already-present key
(in a dict within its capacity) replaces the value without evicting
anything and without changing its position in the eviction order. -/
theorem claim_C3_fifo_eviction :
    (∀ (c k : Nat) (entries : List (String × Nat)), 1 ≤ c →
      entries.length = c + k → (entries.map Prod.fst).Nodup →
      (lsdSetAll (lsdEmpty (some c)) entries).entries = entries.drop k)
    ∧ (∀ (c : Nat) (s : LimitedSizeDict String Nat) (key : String) (v : Nat),
      s.size_limit = some c → s.entries.length ≤ c → key ∈ dkeys s.entries →
      dkeys (lsdSet s key v).entries = dkeys s.entries
        ∧ dlookup key (lsdSet s key v).entries = some v) := by
  constructor
  · intro c k entries _ hlen hnodup
    have h := lsdSetAll_fresh_entries c entries hnodup
    rw [hlen] at h
    have : c + k - c = k := by omega
    rw [this] at h
    exact h
  · intro c s key v hlim hlen hmem
    have hk : dkeys (dset s.entries key v) = dkeys s.entries :=
      dkeys_dset_of_mem _ _ _ hmem
    have hlen2 : (dset s.entries key v).length = s.entries.length := by
      have h := congrArg List.length hk
      simpa [dkeys] using h
    have hent : (lsdSet s key v).entries = dset s.entries key v := by
      show checkSizeLimit s.size_limit (dset s.entries key v) = _
      rw [hlim]
      exact popWhileOver_of_le _ _ (by rw [hlen2]; exact hlen)
    rw [hent]
    exact ⟨hk, dlookup_dset_self _ _ _⟩

/-- C3 witness: capacity 2, three distinct keys — the last two remain
in order; re-setting "a" in a full dict of capacity 2 keeps both keys
in place and stores the new value. -/
theorem claim_C3_fifo_eviction_witness :
    (lsdSetAll (lsdEmpty (some 2)) [("a", 1), ("b", 2), ("c", 3)]).entries
        = [("b", 2), ("c", 3)]
    ∧ (dkeys (lsdSet (⟨some 2, [("a", 1), ("b", 2)]⟩ :
          LimitedSizeDict String Nat) "a" 9).entries = ["a", "b"]
      ∧ dlookup "a" (lsdSet (⟨some 2, [("a", 1), ("b", 2)]⟩ :
          LimitedSizeDict String Nat) "a" 9).entries = some 9) := by
  refine ⟨?_, ?_⟩
  · exact claim_C3_fifo_eviction.1 2 1 [("a", 1), ("b", 2), ("c", 3)]
      (by decide) (by decide) (by decide)
  · exact claim_C3_fifo_eviction.2 2 ⟨some 2, [("a", 1), ("b", 2)]⟩ "a" 9
      rfl (by decide) (by decide)

/-- C7 counterexample: with `size_limit = 0`, inserting a key into an
empty `LimitedSizeDict` leaves the dict empty — the inserted key does
not remain present, so capacity 0 does not behave like "no capacity
set" (the `while 0 < len` loop evicts everything). -/
theorem claim_C7_counterexample :
    (lsdSet (lsdEmpty (some 0) : LimitedSizeDict String Nat) "a" 1).entries = []
    ∧ hasKey (lsdSet (lsdEmpty (some 0) :
        LimitedSizeDict String Nat) "a" 1).entries "a" = false :=
  ⟨rfl, rfl⟩

theorem lsd_none_mem (entries : List (String × Nat)) (key : String)
    (hmem : key ∈ dkeys entries) :
    key ∈ dkeys (lsdSetAll (lsdEmpty none) entries).entries := by
  induction entries using List.reverseRecOn with
  | nil => simp [dkeys] at hmem
  | append_singleton l x ih =>
      rw [lsdSetAll_append]
      show key ∈ dkeys (lsdSet (lsdSetAll (lsdEmpty none) l) x.1 x.2).entries
      have hsl : (lsdSetAll (lsdEmpty none : LimitedSizeDict String Nat) l).size_limit
          = none := lsdSetAll_size_limit _ _
      have hent : (lsdSet (lsdSetAll (lsdEmpty none) l) x.1 x.2).entries
          = dset (lsdSetAll (lsdEmpty none) l).entries x.1 x.2 := by
        show checkSizeLimit _ _ = _
        rw [hsl]
        rfl
      rw [hent]
      rcases (by simpa [dkeys] using hmem : key ∈ dkeys l ∨ key = x.1) with h | h
      · exact mem_dkeys_dset_of_mem _ _ _ _ (ih h)
      · subst h
        exact mem_dkeys_dset_self _ _ _

/-- C7 amended: an unset capacity (`size_limit=None`) means no eviction
— every inserted key remains present after any sequence of inserts; but
`size_limit=0` evicts everything — after any insert the dict is empty. -/
theorem claim_C7_zero_vs_none :
    (∀ (entries : List (String × Nat)) (key : String),
      key ∈ dkeys entries →
      key ∈ dkeys (lsdSetAll (lsdEmpty none) entries).entries)
    ∧ (∀ (s : LimitedSizeDict String Nat) (key : String) (v : Nat),
      s.size_limit = some 0 → (lsdSet s key v).entries = []) := by
  constructor
  · exact lsd_none_mem
  · intro s key v hlim
    show checkSizeLimit s.size_limit (dset s.entries key v) = []
    rw [hlim]
    show popWhileOver 0 (dset s.entries key v) = []
    rw [popWhileOver_eq_drop]
    simp

/-- C7 amended witness: three inserted keys all survive with unset
capacity; one insert at capacity 0 leaves the dict empty. -/
theorem claim_C7_zero_vs_none_witness :
    ("a" ∈ dkeys (lsdSetAll (lsdEmpty none)
        [("a", 1), ("b", 2), ("c", 3)]).entries)
    ∧ (lsdSet (⟨some 0, []⟩ : LimitedSizeDict String Nat) "x" 5).entries = [] :=
  ⟨claim_C7_zero_vs_none.1 [("a", 1), ("b", 2), ("c", 3)] "a" (by decide),
   claim_C7_zero_vs_none.2 ⟨some 0, []⟩ "x" 5 rfl⟩

/-- The Python exception classes relevant to `Cache`. -/
inductive PyErr where
  | keyError
  | typeError
  | valueError
deriving DecidableEq

/-- A value held in the underlying cache store.  `Cache.set` always
stores `json.dumps` of a validated dict (`Stored.json`); a configured
external store may hand back bytes that do not parse as JSON
(`Stored.malformed`). -/
inductive Stored where
  | json (v : Val)
  | malformed (s : String)

/-- Modelled library behavior (`json.loads`): inverts `json.dumps`; on
input that is not valid JSON it raises `json.JSONDecodeError`, a
subclass of `ValueError`. -/
def jsonLoads : Stored → Except PyErr Val
  | .json v => .ok v
  | .malformed _ => .error .valueError

/-- Split a character list on a separator character. -/
def splitOnChar (c : Char) : List Char → List (List Char)
  | [] => [[]]
  | x :: xs =>
      match splitOnChar c xs with
      | [] => if x = c then [[], []] else [[x]]
      | r :: rs => if x = c then [] :: r :: rs else (x :: r) :: rs

/-- Numeric value of a digit string. -/
def digitsToNat (l : List Char) : Nat :=
  l.foldl (fun acc c => acc * 10 + (c.toNat - 48)) 0

/-- A 1-2 digit field within the given bounds (`strptime` `%d`/`%m`/
`%H`/`%M`/`%S` accept one or two digits). -/
def digitsOk (s : String) (lo hi : Nat) : Bool :=
  decide (s.data ≠ []) && s.data.all Char.isDigit && decide (s.data.length ≤ 2)
    && decide (lo ≤ digitsToNat s.data) && decide (digitsToNat s.data ≤ hi)

/-- Modelled library behavior
(`datetime.strptime(s, '%a, %d %m %Y %H:%M:%S %Z')`): accepts an
abbreviated weekday name with a comma, a day, a numeric month, a
four-digit year, a `HH:MM:SS` time, and a timezone name such as GMT or
UTC; `true` iff parsing succeeds. -/
def validDateStr (s : String) : Bool :=
  match (splitOnChar ' ' s.data).map (fun l => (⟨l⟩ : String)) with
  | [wd, d, m, y, t, z] =>
      ["Mon,", "Tue,", "Wed,", "Thu,", "Fri,", "Sat,", "Sun,"].contains wd
      && digitsOk d 1 31 && digitsOk m 1 12
      && decide (y.data.length = 4) && y.data.all Char.isDigit
      && (match (splitOnChar ':' t.data).map (fun l => (⟨l⟩ : String)) with
          | [hh, mm, ss] => digitsOk hh 0 23 && digitsOk mm 0 59 && digitsOk ss 0 61
          | _ => false)
      && ["GMT", "UTC"].contains z
  | _ => false

namespace Cache

/-- The five expected fields of a cache record (the set used by
`validate` to drop extra fields). -/
def fields : List String := ["fromWebhook", "entityTag", "lastFetched", "links", "data"]

/-- `if 'data' not in item: item['data'] = {}`. -/
def vData (l : List (String × Val)) : List (String × Val) :=
  match dlookup "data" l with
  | none => dset l "data" (.dict [])
  | some _ => l

/-- `links` check: default `{}` when absent, `TypeError` when present
but not a dict. -/
def vLinks (l : List (String × Val)) : Except PyErr (List (String × Val)) :=
  match dlookup "links" l with
  | none => .ok (dset l "links" (.dict []))
  | some (.dict _) => .ok l
  | some _ => .error .typeError

/-- `lastFetched` check: defaults to the current GMT time formatted as
`'%a, %d %m %Y %H:%M:%S %Z'` (the `now` argument) when absent;
when present, `datetime.strptime` raises `TypeError` for a non-string
and `ValueError` for a string in the wrong format. -/
def vLastFetched (now : String) (l : List (String × Val)) :
    Except PyErr (List (String × Val)) :=
  match dlookup "lastFetched" l with
  | none => .ok (dset l "lastFetched" (.str now))
  | some (.str s) => if validDateStr s then .ok l else .error .valueError
  | some _ => .error .typeError

/-- `entityTag` check: default `None` when absent; `TypeError` unless a
string or `None`. -/
def vEntityTag (l : List (String × Val)) : Except PyErr (List (String × Val)) :=
  match dlookup "entityTag" l with
  | none => .ok (dset l "entityTag" .null)
  | some (.str _) => .ok l
  | some .null => .ok l
  | some _ => .error .typeError

/-- `fromWebhook` check: default `False` when absent; `TypeError`
unless a bool. -/
def vFromWebhook (l : List (String × Val)) : Except PyErr (List (String × Val)) :=
  match dlookup "fromWebhook" l with
  | none => .ok (dset l "fromWebhook" (.bool false))
  | some (.bool _) => .ok l
  | some _ => .error .typeError

/-- The final comprehension dropping any field outside the expected
five. -/
def filterFields (l : List (String × Val)) : List (String × Val) :=
  l.filter (fun p => fields.contains p.1)

/-- `Cache.validate(item)`: sequential field checks, each raising as in
the source; non-dict arguments always end in a `TypeError` in the
source (a membership test or item assignment on a non-dict). -/
def validate (now : String) : Val → Except PyErr Val
  | .dict l =>
      match vLinks (vData l) with
      | .error e => .error e
      | .ok l2 =>
          match vLastFetched now l2 with
          | .error e => .error e
          | .ok l3 =>
              match vEntityTag l3 with
              | .error e => .error e
              | .ok l4 =>
                  match vFromWebhook l4 with
                  | .error e => .error e
                  | .ok l5 => .ok (.dict (filterFields l5))
  | _ => .error .typeError

/-- `Cache.get(key)`:
`try: return cls.validate(json.loads(cls._get(key))) except (KeyError, TypeError): return None`.
`readFn` is the configured read function (`cls._get`).  A `ValueError`
(malformed JSON from `json.loads`, or a bad `lastFetched` format from
`strptime`) is not in the except clause and propagates. -/
def get (readFn : String → Except PyErr Stored) (now key : String) :
    Except PyErr (Option Val) :=
  match (readFn key).bind (fun st => (jsonLoads st).bind (validate now)) with
  | .ok r => .ok (some r)
  | .error .keyError => .ok none
  | .error .typeError => .ok none
  | .error .valueError => .error .valueError

/-- The default in-memory store is `LimitedSizeDict(size_limit=10**6)`;
its `__getitem__` raises `KeyError` for a missing key. -/
def memRead (store : LimitedSizeDict String Stored) (key : String) :
    Except PyErr Stored :=
  match dlookup key store.entries with
  | some st => .ok st
  | none => .error .keyError

/-- `Cache.set(key, item)`: validates (letting exceptions propagate),
serializes and writes to the store. -/
def set (now : String) (store : LimitedSizeDict String Stored) (key : String)
    (item : Val) : Except PyErr (LimitedSizeDict String Stored) :=
  (validate now item).map (fun it => lsdSet store key (.json it))

/-- Python `{**base, **new}`: keys of `base` in order, values
overwritten by `new`, new keys appended in `new`'s order. -/
def mergeDicts (base new : List (String × Val)) : List (String × Val) :=
  new.foldl (fun acc p => dset acc p.1 p.2) base

/-- `{**(x or {})}` on `get`'s result: `None` acts as `{}`; unpacking a
non-mapping would raise `TypeError` (unreachable, since `validate` only
returns dicts). -/
def asBase : Option Val → Except PyErr (List (String × Val))
  | none => .ok []
  | some (.dict l) => .ok l
  | some _ => .error .typeError

/-- `Cache.update(key, new_value)`:
`cls.set(key, {**(cls.get(key) or {}), **new_value})`, on the default
in-memory store. -/
def update (now : String) (store : LimitedSizeDict String Stored) (key : String)
    (newValue : List (String × Val)) : Except PyErr (LimitedSizeDict String Stored) :=
  match get (memRead store) now key with
  | .error e => .error e
  | .ok r => (asBase r).bind (fun base => set now store key (.dict (mergeDicts base newValue)))

end Cache

/-- A concrete well-formed timestamp in the cache's fixed format. -/
def now0 : String := "Mon, 01 01 2018 00:00:00 GMT"

/-- C4 counterexample: a cached value that fails to parse as JSON makes
`Cache.get` raise `ValueError` (`json.JSONDecodeError` is a `ValueError`
and only `KeyError`/`TypeError` are caught) instead of returning the
absent value. -/
theorem claim_C4_counterexample :
    Cache.get (fun _ => .ok (.malformed "not json")) now0 "k" = .error .valueError
    ∧ Cache.get (fun _ => .ok (.malformed "not json")) now0 "k" ≠ .ok none :=
  ⟨rfl, fun h => Except.noConfusion h⟩

/-- `isDict v` - whether a parsed JSON value is an object. -/
def isDict : Val → Bool
  | .dict _ => true
  | _ => false

/-- C4 amended: `Cache.get` returns the absent value when the read
raises a lookup failure (`KeyError`), when the read raises `TypeError`,
or when the parsed value is not a dict (`validate` then raises
`TypeError`); but a `ValueError` — malformed JSON, or a present
`lastFetched` string in the wrong format — propagates out of `get`. -/
theorem claim_C4_soft_miss :
    (∀ (readFn : String → Except PyErr Stored) (now key : String),
      readFn key = .error .keyError → Cache.get readFn now key = .ok none)
    ∧ (∀ (readFn : String → Except PyErr Stored) (now key : String),
      readFn key = .error .typeError → Cache.get readFn now key = .ok none)
    ∧ (∀ (readFn : String → Except PyErr Stored) (now key : String) (v : Val),
      readFn key = .ok (.json v) → isDict v = false →
      Cache.get readFn now key = .ok none)
    ∧ (∀ (readFn : String → Except PyErr Stored) (now key s : String),
      readFn key = .ok (.malformed s) →
      Cache.get readFn now key = .error .valueError)
    ∧ (∀ (readFn : String → Except PyErr Stored) (now key : String),
      readFn key = .ok (.json (.dict [("lastFetched", .str "Tue, 10 March 2021")])) →
      Cache.get readFn now key = .error .valueError) := by
  refine ⟨?_, ?_, ?_, ?_, ?_⟩
  · intro readFn now key h
    unfold Cache.get
    rw [h]
    rfl
  · intro readFn now key h
    unfold Cache.get
    rw [h]
    rfl
  · intro readFn now key v h hv
    unfold Cache.get
    rw [h]
    cases v with
    | dict l => simp [isDict] at hv
    | str s => rfl
    | num n => rfl
    | bool b => rfl
    | null => rfl
    | list l => rfl
  · intro readFn now key s h
    unfold Cache.get
    rw [h]
    rfl
  · intro readFn now key h
    unfold Cache.get
    rw [h]
    rfl

/-- C4 amended witness: each branch at a concrete input. -/
theorem claim_C4_soft_miss_witness :
    Cache.get (fun _ => .error .keyError) now0 "k" = .ok none
    ∧ Cache.get (fun _ => .error .typeError) now0 "k" = .ok none
    ∧ Cache.get (fun _ => .ok (.json (Val.num 3))) now0 "k" = .ok none
    ∧ Cache.get (fun _ => .ok (.malformed "oops")) now0 "k2" = .error .valueError
    ∧ Cache.get (fun _ => .ok (.json (.dict [("lastFetched",
        .str "Tue, 10 March 2021")]))) now0 "k" = .error .valueError :=
  ⟨claim_C4_soft_miss.1 _ now0 "k" rfl,
   claim_C4_soft_miss.2.1 _ now0 "k" rfl,
   claim_C4_soft_miss.2.2.1 _ now0 "k" (Val.num 3) rfl rfl,
   claim_C4_soft_miss.2.2.2.1 _ now0 "k2" "oops" rfl,
   claim_C4_soft_miss.2.2.2.2 _ now0 "k" rfl⟩

/-- The store after `Cache.set(now0, {}, "k", {'a': 1})`. -/
def c6store1 : Except PyErr (LimitedSizeDict String Stored) :=
  Cache.set now0 (lsdEmpty (some 1000000)) "k" (.dict [("a", .num 1)])

/-- ... then `Cache.update("k", {'b': 2})`. -/
def c6store2 : Except PyErr (LimitedSizeDict String Stored) :=
  c6store1.bind (fun st => Cache.update now0 st "k" [("b", .num 2)])

/-- ... then `Cache.get("k")`. -/
def c6result : Except PyErr (Option Val) :=
  c6store2.bind (fun st => Cache.get (Cache.memRead st) now0 "k")

/-- The record `c6result` actually yields. -/
def c6rec : List (String × Val) :=
  [("data", .dict []), ("links", .dict []), ("lastFetched", .str now0),
   ("entityTag", .null), ("fromWebhook", .bool false)]

/-- C6 counterexample: after `set(k, {'a': 1})` then `update(k, {'b': 2})`,
`get(k)` yields a record that contains neither 'a' nor 'b' — `validate`
drops all non-schema fields on every `set`, so the claimed merged record
with both keys never materializes. -/
theorem claim_C6_counterexample :
    c6result = .ok (some (Val.dict c6rec))
    ∧ hasKey c6rec "a" = false ∧ hasKey c6rec "b" = false :=
  ⟨rfl, rfl, rfl⟩

/-- Store after `set(k, {'data': {'x': 7}, 'entityTag': 'e1'})`. -/
def c6mStore1 : Except PyErr (LimitedSizeDict String Stored) :=
  Cache.set now0 (lsdEmpty (some 1000000)) "k"
    (.dict [("data", .dict [("x", .num 7)]), ("entityTag", .str "e1")])

/-- ... then `update(k, {'entityTag': 'e2'})`. -/
def c6mStore2 : Except PyErr (LimitedSizeDict String Stored) :=
  c6mStore1.bind (fun st => Cache.update now0 st "k" [("entityTag", .str "e2")])

/-- ... then `get(k)`. -/
def c6mResult : Except PyErr (Option Val) :=
  c6mStore2.bind (fun st => Cache.get (Cache.memRead st) now0 "k")

/-- C6 amended: `update` is a top-level shallow overwrite merge of the
previously stored record (missing entry behaving like a fresh `set`),
but every `set` validates and drops non-schema fields, so only the five
schema fields survive: after `set(k, {'data': {'x': 7}, 'entityTag': 'e1'})`
then `update(k, {'entityTag': 'e2'})`, `get(k)` yields a record where
`data` is kept from the first write and `entityTag` is overwritten by
the update. -/
theorem claim_C6_update_merge :
    c6mResult = .ok (some (Val.dict
      [("data", .dict [("x", .num 7)]), ("entityTag", .str "e2"),
       ("links", .dict []), ("lastFetched", .str now0),
       ("fromWebhook", .bool false)])) := rfl

/-- The value at key `k` is a dict. -/
def isDictAt (l : List (String × Val)) (k : String) : Bool :=
  match dlookup k l with
  | some (.dict _) => true
  | _ => false

/-- The value at key `k` is a string in the cache's fixed datetime
format. -/
def isValidDateAt (l : List (String × Val)) (k : String) : Bool :=
  match dlookup k l with
  | some (.str s) => validDateStr s
  | _ => false

/-- The value at key `k` is a string or null. -/
def isTagAt (l : List (String × Val)) (k : String) : Bool :=
  match dlookup k l with
  | some (.str _) => true
  | some .null => true
  | _ => false

/-- The value at key `k` is a bool. -/
def isBoolAt (l : List (String × Val)) (k : String) : Bool :=
  match dlookup k l with
  | some (.bool _) => true
  | _ => false

/-- A canonical cache record: a dict whose keys all lie in the five
schema fields, with each of the five present and of the right shape. -/
def canonicalRecord : Val → Bool
  | .dict l =>
      l.all (fun p => Cache.fields.contains p.1)
      && hasKey l "data"
      && isDictAt l "links"
      && isValidDateAt l "lastFetched"
      && isTagAt l "entityTag"
      && isBoolAt l "fromWebhook"
  | _ => false

theorem vData_hasKey (l : List (String × Val)) :
    hasKey (Cache.vData l) "data" = true := by
  unfold Cache.vData
  cases h : dlookup "data" l with
  | none => simp [hasKey, dlookup_dset_self]
  | some v => simp [hasKey, h]

theorem vData_pres (l : List (String × Val)) (k : String) (hk : k ≠ "data") :
    dlookup k (Cache.vData l) = dlookup k l := by
  unfold Cache.vData
  cases h : dlookup "data" l with
  | none => exact dlookup_dset_ne _ _ _ _ (Ne.symm hk)
  | some v => rfl

theorem vLinks_ok (l l2 : List (String × Val)) (h : Cache.vLinks l = .ok l2) :
    isDictAt l2 "links" = true
    ∧ ∀ k, k ≠ "links" → dlookup k l2 = dlookup k l := by
  unfold Cache.vLinks at h
  cases hl : dlookup "links" l with
  | none =>
      rw [hl] at h
      cases h
      exact ⟨by simp [isDictAt, dlookup_dset_self],
        fun k hk => dlookup_dset_ne _ _ _ _ (Ne.symm hk)⟩
  | some v =>
      rw [hl] at h
      cases v with
      | dict d =>
          cases h
          exact ⟨by simp [isDictAt, hl], fun k hk => rfl⟩
      | str s => exact Except.noConfusion h
      | num n => exact Except.noConfusion h
      | bool b => exact Except.noConfusion h
      | null => exact Except.noConfusion h
      | list d => exact Except.noConfusion h

theorem vLastFetched_ok (now : String) (l l3 : List (String × Val))
    (hnow : validDateStr now = true) (h : Cache.vLastFetched now l = .ok l3) :
    isValidDateAt l3 "lastFetched" = true
    ∧ ∀ k, k ≠ "lastFetched" → dlookup k l3 = dlookup k l := by
  unfold Cache.vLastFetched at h
  cases hl : dlookup "lastFetched" l with
  | none =>
      rw [hl] at h
      cases h
      exact ⟨by simp [isValidDateAt, dlookup_dset_self, hnow],
        fun k hk => dlookup_dset_ne _ _ _ _ (Ne.symm hk)⟩
  | some v =>
      rw [hl] at h
      cases v with
      | str s =>
          have h2 : (if validDateStr s = true then Except.ok l
              else Except.error PyErr.valueError) = Except.ok l3 := h
          cases hval : validDateStr s with
          | true =>
              rw [hval] at h2
              simp only [if_true] at h2
              cases h2
              exact ⟨by simp [isValidDateAt, hl, hval], fun k hk => rfl⟩
          | false =>
              rw [hval] at h2
              simp only [Bool.false_eq_true, if_false] at h2
              exact Except.noConfusion h2
      | num n => exact Except.noConfusion h
      | bool b => exact Except.noConfusion h
      | null => exact Except.noConfusion h
      | dict d => exact Except.noConfusion h
      | list d => exact Except.noConfusion h

theorem vEntityTag_ok (l l4 : List (String × Val)) (h : Cache.vEntityTag l = .ok l4) :
    isTagAt l4 "entityTag" = true
    ∧ ∀ k, k ≠ "entityTag" → dlookup k l4 = dlookup k l := by
  unfold Cache.vEntityTag at h
  cases hl : dlookup "entityTag" l with
  | none =>
      rw [hl] at h
      cases h
      exact ⟨by simp [isTagAt, dlookup_dset_self],
        fun k hk => dlookup_dset_ne _ _ _ _ (Ne.symm hk)⟩
  | some v =>
      rw [hl] at h
      cases v with
      | str s =>
          cases h
          exact ⟨by simp [isTagAt, hl], fun k hk => rfl⟩
      | null =>
          cases h
          exact ⟨by simp [isTagAt, hl], fun k hk => rfl⟩
      | num n => exact Except.noConfusion h
      | bool b => exact Except.noConfusion h
      | dict d => exact Except.noConfusion h
      | list d => exact Except.noConfusion h

theorem vFromWebhook_ok (l l5 : List (String × Val))
    (h : Cache.vFromWebhook l = .ok l5) :
    isBoolAt l5 "fromWebhook" = true
    ∧ ∀ k, k ≠ "fromWebhook" → dlookup k l5 = dlookup k l := by
  unfold Cache.vFromWebhook at h
  cases hl : dlookup "fromWebhook" l with
  | none =>
      rw [hl] at h
      cases h
      exact ⟨by simp [isBoolAt, dlookup_dset_self],
        fun k hk => dlookup_dset_ne _ _ _ _ (Ne.symm hk)⟩
  | some v =>
      rw [hl] at h
      cases v with
      | bool b =>
          cases h
          exact ⟨by simp [isBoolAt, hl], fun k hk => rfl⟩
      | str s => exact Except.noConfusion h
      | num n => exact Except.noConfusion h
      | null => exact Except.noConfusion h
      | dict d => exact Except.noConfusion h
      | list d => exact Except.noConfusion h

theorem filterFields_all (l : List (String × Val)) :
    (Cache.filterFields l).all (fun p => Cache.fields.contains p.1) = true := by
  rw [List.all_eq_true]
  intro p hp
  exact (List.mem_filter.mp hp).2

theorem filterFields_lookup (l : List (String × Val)) (k : String)
    (hk : Cache.fields.contains k = true) :
    dlookup k (Cache.filterFields l) = dlookup k l := by
  induction l with
  | nil => rfl
  | cons p rest ih =>
      obtain ⟨k', v'⟩ := p
      by_cases h : k' = k
      · subst h
        simp only [Cache.filterFields, List.filter_cons, hk, if_true]
        simp [dlookup]
      · cases hc : Cache.fields.contains k' with
        | true =>
            simp only [Cache.filterFields, List.filter_cons, hc, if_true]
            simp only [dlookup, if_neg h]
            exact ih
        | false =>
            simp only [Cache.filterFields, List.filter_cons, hc,
              Bool.false_eq_true, if_false]
            simp only [dlookup, if_neg h]
            exact ih

theorem cacheGet_ok_some (readFn : String → Except PyErr Stored)
    (now key : String) (r : Val)
    (h : Cache.get readFn now key = .ok (some r)) :
    ∃ v : Val, Cache.validate now v = .ok r := by
  unfold Cache.get at h
  cases hr : readFn key with
  | error e =>
      rw [hr] at h
      cases e <;> exact absurd h (by simp [Except.bind])
  | ok st =>
      rw [hr] at h
      cases st with
      | malformed s => exact absurd h (by simp [Except.bind, jsonLoads])
      | json v =>
          refine ⟨v, ?_⟩
          have h2 : (match Cache.validate now v with
              | .ok rr => (.ok (some rr) : Except PyErr (Option Val))
              | .error .keyError => .ok none
              | .error .typeError => .ok none
              | .error .valueError => .error .valueError) = .ok (some r) := h
          cases hv : Cache.validate now v with
          | ok rr =>
              rw [hv] at h2
              cases h2
              rfl
          | error e =>
              rw [hv] at h2
              cases e <;> exact absurd h2 (by simp)

theorem validate_ok_canonical (now : String) (item r : Val)
    (hnow : validDateStr now = true) (h : Cache.validate now item = .ok r) :
    canonicalRecord r = true := by
  cases item with
  | str s => exact absurd h (by simp [Cache.validate])
  | num n => exact absurd h (by simp [Cache.validate])
  | bool b => exact absurd h (by simp [Cache.validate])
  | null => exact absurd h (by simp [Cache.validate])
  | list l => exact absurd h (by simp [Cache.validate])
  | dict l =>
      have h1 : (match Cache.vLinks (Cache.vData l) with
          | Except.error e => (Except.error e : Except PyErr Val)
          | Except.ok l2 =>
            match Cache.vLastFetched now l2 with
            | Except.error e => Except.error e
            | Except.ok l3 =>
              match Cache.vEntityTag l3 with
              | Except.error e => Except.error e
              | Except.ok l4 =>
                match Cache.vFromWebhook l4 with
                | Except.error e => Except.error e
                | Except.ok l5 => Except.ok (Val.dict (Cache.filterFields l5)))
          = Except.ok r := h
      cases hL : Cache.vLinks (Cache.vData l) with
      | error e =>
          rw [hL] at h1
          exact absurd h1 (by simp)
      | ok l2 =>
          rw [hL] at h1
          have h2 : (match Cache.vLastFetched now l2 with
              | Except.error e => (Except.error e : Except PyErr Val)
              | Except.ok l3 =>
                match Cache.vEntityTag l3 with
                | Except.error e => Except.error e
                | Except.ok l4 =>
                  match Cache.vFromWebhook l4 with
                  | Except.error e => Except.error e
                  | Except.ok l5 => Except.ok (Val.dict (Cache.filterFields l5)))
              = Except.ok r := h1
          cases hF : Cache.vLastFetched now l2 with
          | error e =>
              rw [hF] at h2
              exact absurd h2 (by simp)
          | ok l3 =>
              rw [hF] at h2
              have h3 : (match Cache.vEntityTag l3 with
                  | Except.error e => (Except.error e : Except PyErr Val)
                  | Except.ok l4 =>
                    match Cache.vFromWebhook l4 with
                    | Except.error e => Except.error e
                    | Except.ok l5 => Except.ok (Val.dict (Cache.filterFields l5)))
                  = Except.ok r := h2
              cases hE : Cache.vEntityTag l3 with
              | error e =>
                  rw [hE] at h3
                  exact absurd h3 (by simp)
              | ok l4 =>
                  rw [hE] at h3
                  have h4 : (match Cache.vFromWebhook l4 with
                      | Except.error e => (Except.error e : Except PyErr Val)
                      | Except.ok l5 =>
                        Except.ok (Val.dict (Cache.filterFields l5)))
                      = Except.ok r := h3
                  cases hW : Cache.vFromWebhook l4 with
                  | error e =>
                      rw [hW] at h4
                      exact absurd h4 (by simp)
                  | ok l5 =>
                      rw [hW] at h4
                      cases h4
                      have PL := vLinks_ok _ _ hL
                      have PF := vLastFetched_ok now _ _ hnow hF
                      have PE := vEntityTag_ok _ _ hE
                      have PW := vFromWebhook_ok _ _ hW
                      simp only [canonicalRecord, Bool.and_eq_true]
                      refine ⟨⟨⟨⟨⟨filterFields_all l5, ?_⟩, ?_⟩, ?_⟩, ?_⟩, ?_⟩
                      · have hd := vData_hasKey l
                        simp only [hasKey] at hd ⊢
                        rw [filterFields_lookup _ _ (by decide),
                          PW.2 "data" (by decide), PE.2 "data" (by decide),
                          PF.2 "data" (by decide), PL.2 "data" (by decide)]
                        exact hd
                      · have h1 := PL.1
                        unfold isDictAt at h1 ⊢
                        rw [filterFields_lookup _ _ (by decide),
                          PW.2 "links" (by decide), PE.2 "links" (by decide),
                          PF.2 "links" (by decide)]
                        exact h1
                      · have h1 := PF.1
                        unfold isValidDateAt at h1 ⊢
                        rw [filterFields_lookup _ _ (by decide),
                          PW.2 "lastFetched" (by decide),
                          PE.2 "lastFetched" (by decide)]
                        exact h1
                      · have h1 := PE.1
                        unfold isTagAt at h1 ⊢
                        rw [filterFields_lookup _ _ (by decide),
                          PW.2 "entityTag" (by decide)]
                        exact h1
                      · have h1 := PW.1
                        unfold isBoolAt at h1 ⊢
                        rw [filterFields_lookup _ _ (by decide)]
                        exact h1

/-- C9: whenever `Cache.get` returns a non-absent record, that record
is canonical: exactly the five schema keys, with `links` a dict,
`entityTag` a string or null, `fromWebhook` a bool, and `lastFetched` a
string in the fixed datetime format — because `get` validates
(backfilling defaults and dropping extra fields) before returning.
`now` is the formatted current time `validate` uses for a missing
`lastFetched` (`strftime` output, well-formed by hypothesis). -/
theorem claim_C9_canonical_get (readFn : String → Except PyErr Stored)
    (now key : String) (r : Val) (hnow : validDateStr now = true)
    (h : Cache.get readFn now key = .ok (some r)) :
    canonicalRecord r = true := by
  obtain ⟨v, hv⟩ := cacheGet_ok_some readFn now key r h
  exact validate_ok_canonical now v r hnow hv

/-- C9 witness: a concrete read of a partial record yields a canonical
record. -/
theorem claim_C9_canonical_get_witness :
    validDateStr now0 = true
    ∧ Cache.get (fun _ => .ok (.json (.dict [("data", .num 4)]))) now0 "k"
        = .ok (some (.dict [("data", .num 4), ("links", .dict []),
            ("lastFetched", .str now0), ("entityTag", .null),
            ("fromWebhook", .bool false)]))
    ∧ canonicalRecord (.dict [("data", .num 4), ("links", .dict []),
        ("lastFetched", .str now0), ("entityTag", .null),
        ("fromWebhook", .bool false)]) = true :=
  ⟨by decide, rfl,
   claim_C9_canonical_get (fun _ => .ok (.json (.dict [("data", .num 4)])))
     now0 "k" _ (by decide) rfl⟩

/-- The fragment of Python `re` syntax used by `get_keywords_issues`:
character classes, concatenation, ordered alternation, greedy/lazy
repetition, capture groups, and `^` (no MULTILINE flag is set, so `^`
matches only at offset 0). -/
inductive RE where
  | eps
  | cls (p : Char → Bool)
  | seq (a b : RE)
  | alt (a b : RE)
  | star (a : RE) (greedy : Bool)
  | group (n : Nat) (a : RE)
  | bol

/-- A single literal character. -/
def chr (c : Char) : RE := .cls (fun c2 => c2 = c)

/-- A literal string. -/
def strRe (s : String) : RE := s.data.foldr (fun c r => RE.seq (chr c) r) RE.eps

/-- `+` (one or more). -/
def plus (a : RE) (greedy : Bool) : RE := .seq a (.star a greedy)

/-- greedy `?`. -/
def opt (a : RE) : RE := .alt a .eps

/-- Size of the syntax tree, used to bound the matcher fuel. -/
def reSize : RE → Nat
  | .eps => 1
  | .bol => 1
  | .cls _ => 1
  | .seq a b => reSize a + reSize b + 1
  | .alt a b => reSize a + reSize b + 1
  | .star a _ => reSize a + 1
  | .group _ a => reSize a + 1

/-- Backtracking matcher in continuation-passing style, following
CPython `re` semantics: leftmost alternative first, greedy repetition
tries one more iteration first (lazy the opposite), a repetition making
no progress stops.  Captures are spans `(group, start, stop)`, most
recent first.  `fuel` bounds the backtracking depth; the callers below
supply enough fuel for their inputs. -/
def mrun (fuel : Nat) (r : RE) (s : List Char) (pos : Nat)
    (caps : List (Nat × Nat × Nat))
    (k : Nat → List (Nat × Nat × Nat) → Option (Nat × List (Nat × Nat × Nat))) :
    Option (Nat × List (Nat × Nat × Nat)) :=
  match fuel with
  | 0 => none
  | fuel + 1 =>
    match r with
    | .eps => k pos caps
    | .bol => if pos = 0 then k pos caps else none
    | .cls p =>
        match s.drop pos with
        | [] => none
        | c :: _ => if p c then k (pos + 1) caps else none
    | .seq a b =>
        mrun fuel a s pos caps (fun pos2 caps2 => mrun fuel b s pos2 caps2 k)
    | .alt a b =>
        match mrun fuel a s pos caps k with
        | some res => some res
        | none => mrun fuel b s pos caps k
    | .star a greedy =>
        let deeper := mrun fuel a s pos caps (fun pos2 caps2 =>
          if pos2 = pos then none else mrun fuel (.star a greedy) s pos2 caps2 k)
        if greedy then
          match deeper with
          | some res => some res
          | none => k pos caps
        else
          match k pos caps with
          | some res => some res
          | none => deeper
    | .group n a =>
        mrun fuel a s pos caps (fun pos2 caps2 => k pos2 ((n, pos, pos2) :: caps2))

/-- One match attempt anchored at `pos` (first success in backtracking
order), with generous fuel. -/
def mAt (r : RE) (s : List Char) (pos : Nat) :
    Option (Nat × List (Nat × Nat × Nat)) :=
  mrun ((reSize r + 4) * (4 * s.length + 8)) r s pos []
    (fun pos2 caps2 => some (pos2, caps2))

/-- `re.findall` scanning: try each position left to right, record the
match and continue at its end (one past it for an empty match). -/
def findallFrom (r : RE) (s : List Char) :
    Nat → Nat → List (Nat × Nat × List (Nat × Nat × Nat))
  | 0, _ => []
  | fuel + 1, pos =>
      if pos > s.length then []
      else
        match mAt r s pos with
        | some (e, caps) =>
            (pos, e, caps) ::
              (if pos < e then findallFrom r s fuel e
               else findallFrom r s fuel (pos + 1))
        | none => findallFrom r s fuel (pos + 1)

/-- `re.findall`, as (start, stop, captures) triples. -/
def findall (r : RE) (s : List Char) : List (Nat × Nat × List (Nat × Nat × Nat)) :=
  findallFrom r s (s.length + 2) 0

/-- Span of the most recent capture of a group. -/
def capLookup (caps : List (Nat × Nat × Nat)) (n : Nat) : Option (Nat × Nat) :=
  match caps with
  | [] => none
  | (m, a, b) :: rest => if m = n then some (a, b) else capLookup rest n

/-- Text of a captured group; an unmatched group yields the empty
string, as in `re.findall`. -/
def groupStr (s : List Char) (caps : List (Nat × Nat × Nat)) (n : Nat) :
    List Char :=
  match capLookup caps n with
  | some (a, b) => (s.drop a).take (b - a)
  | none => []

/-- `\w` (ASCII). -/
def isWordChar (c : Char) : Bool := c.isAlphanum || c = '_'

/-- `[\w\.-]`, the `identifier_regex` character class. -/
def isIdChar (c : Char) : Bool := isWordChar c || c = '.' || c = '-'

/-- `\s` (ASCII whitespace). -/
def isSpaceChar (c : Char) : Bool :=
  c = ' ' || c = '\t' || c = '\n' || c = '\r' || c = '\x0b' || c = '\x0c'

/-- `\s`. -/
def wsRe : RE := .cls isSpaceChar

/-- `\S`. -/
def nonSpaceRe : RE := .cls (fun c => !(isSpaceChar c))

/-- `issue_no_regex = r'[1-9][0-9]*'`. -/
def issueNoRe : RE :=
  .seq (.cls (fun c => ('1' ≤ c) && (c ≤ '9'))) (.star (.cls (fun c => ('0' ≤ c) && (c ≤ '9'))) true)

/-- `identifier_regex = r'[\w\.-]+'`. -/
def identifierRe : RE := plus (.cls isIdChar) true

/-- `namespace_regex = r'(?:{0})/(?:{0})(?:/(?:{0}))?'`. -/
def namespaceRe : RE :=
  .seq identifierRe (.seq (chr '/')
    (.seq identifierRe (opt (.seq (chr '/') identifierRe))))

/-- `concat_regex = ','|'\sand\s'`. -/
def concatRe : RE := .alt (chr ',') (.seq wsRe (.seq (strRe "and") wsRe))

/-- `issue_url_regex = r'https?://{hoster}\S+/issues/{issue_no}'`. -/
def issueUrlRe (hoster : String) : RE :=
  .seq (strRe "http") (.seq (opt (chr 's')) (.seq (strRe "://")
    (.seq (strRe hoster) (.seq (plus nonSpaceRe true)
      (.seq (strRe "/issues/") issueNoRe)))))

/-- `c_joint_regex`:
`((?:keyword)(?:(?:concat)?\s*(?:(?:\S*)#issue_no|(?:issue_url)))+)`. -/
def jointRe (kw : RE) (hoster : String) : RE :=
  .group 1 (.seq kw
    (plus (.seq (opt concatRe) (.seq (.star wsRe true)
      (.alt (.seq (.star nonSpaceRe true) (.seq (chr '#') issueNoRe))
            (issueUrlRe hoster)))) true))

/-- `c_issue_capture_regex`:
`(?:(?:\s+|^)(namespace)?#(issue_no))|(?:https?://{hoster}\S+?/(namespace)/issues/(issue_no))`. -/
def captureRe (hoster : String) : RE :=
  .alt
    (.seq (.alt (plus wsRe true) .bol)
      (.seq (opt (.group 1 namespaceRe)) (.seq (chr '#') (.group 2 issueNoRe))))
    (.seq (strRe "http") (.seq (opt (chr 's')) (.seq (strRe "://")
      (.seq (strRe hoster) (.seq (plus nonSpaceRe false)
        (.seq (chr '/') (.seq (.group 3 namespaceRe)
          (.seq (strRe "/issues/") (.group 4 issueNoRe)))))))))

/-- The empty keyword (the `_get_mentioned_issues` call). -/
def emptyKw : RE := .eps

/-- `SUPPORTED_HOST_KEYWORD_REGEX['github']`:
`[Cc]lose[sd]?|[Rr]esolve[sd]?|[Ff]ix(?:e[sd])?`. -/
def githubKwRe : RE :=
  .alt (.seq (.cls (fun c => c = 'C' || c = 'c'))
          (.seq (strRe "lose") (opt (.cls (fun c => c = 's' || c = 'd')))))
    (.alt (.seq (.cls (fun c => c = 'R' || c = 'r'))
            (.seq (strRe "esolve") (opt (.cls (fun c => c = 's' || c = 'd')))))
      (.seq (.cls (fun c => c = 'F' || c = 'f'))
        (.seq (strRe "ix") (opt (.seq (chr 'e') (.cls (fun c => c = 's' || c = 'd')))))))

/-- One 4-tuple from `c_issue_capture_regex.findall`: the captures
(short-form namespace, short-form number, URL namespace, URL number);
an unmatched group is the empty string. -/
structure RefTuple where
  g1 : String
  g2 : String
  g3 : String
  g4 : String
deriving DecidableEq

/-- `results.add(...)` on a Python set. -/
def addPair (res : List (String × String)) (p : String × String) :
    List (String × String) :=
  if res.contains p then res else res ++ [p]

/-- The body of the `for ref in refs` loop of `get_keywords_issues`:
`if ref[0] != '': repo_name = ref[0]`,
`if ref[1] != '': results.add((ref[1], repo_name))`,
`if ref[2] != '' and ref[3] != '': results.add((ref[3], ref[2]))`. -/
def processRef (st : String × List (String × String)) (ref : RefTuple) :
    String × List (String × String) :=
  let ctx := if ref.g1 ≠ "" then ref.g1 else st.1
  let res1 := if ref.g2 ≠ "" then addPair st.2 (ref.g2, ctx) else st.2
  let res2 := if ref.g3 ≠ "" ∧ ref.g4 ≠ "" then addPair res1 (ref.g4, ref.g3) else res1
  (ctx, res2)

/-- The loop over one body's reference tuples. -/
def processRefs (st : String × List (String × String)) (refs : List RefTuple) :
    String × List (String × String) :=
  refs.foldl processRef st

/-- The regex stage for one body string:
`c_joint_regex.findall(body.replace('\r', ''))`, then
`c_issue_capture_regex.findall` over each joint match. -/
def refsOfBody (kw : RE) (hoster : String) (body : String) : List RefTuple :=
  let chars := body.data.filter (fun c => c ≠ '\r')
  let ms := (findall (jointRe kw hoster) chars).map
    (fun m => groupStr chars m.2.2 1)
  (ms.map (fun m =>
    (findall (captureRe hoster) m).map (fun r =>
      (⟨⟨groupStr m r.2.2 1⟩, ⟨groupStr m r.2.2 2⟩,
        ⟨groupStr m r.2.2 3⟩, ⟨groupStr m r.2.2 4⟩⟩ : RefTuple)))).join

/-- `Commit.get_keywords_issues(keyword, body_list)`, parametrized by
the repository's hoster and full name: `repo_name` is initialized once
to the full name before the loop over `body_list`, and the reference
tuples of each body are folded through `processRef`. -/
def getKeywordsIssues (kw : RE) (hoster repoFullName : String)
    (bodyList : List String) : List (String × String) :=
  (bodyList.foldl (fun st body => processRefs st (refsOfBody kw hoster body))
    (repoFullName, [])).2

example : refsOfBody emptyKw "github" "#123ds"
    = [⟨"", "123", "", ""⟩] := by decide
example : getKeywordsIssues emptyKw "github" "gitmate-test-user/test" ["#123ds"]
    = [("123", "gitmate-test-user/test")] := by decide
example : getKeywordsIssues githubKwRe "github" "gitmate-test-user/test" ["#123ds"]
    = [] := by decide

example : getKeywordsIssues emptyKw "github" "gitmate-test-user/test"
    ["https://github.com/gitmate-test-user/test/issues/123"]
    = [("123", "gitmate-test-user/test")] := by decide
example : getKeywordsIssues emptyKw "github" "gitmate-test-user/test"
    ["gitmate-test-user/test/repo#234"]
    = [("234", "gitmate-test-user/test/repo")] := by decide
example : getKeywordsIssues emptyKw "github" "gitmate-test-user/test"
    ["#456"] = [("456", "gitmate-test-user/test")] := by decide
example : getKeywordsIssues emptyKw "github" "gitmate-test-user/test"
    ["hey there [#123](https://github.com/gitmate-test-user/test/issues/345)"]
    = [("345", "gitmate-test-user/test")] := by decide
example : getKeywordsIssues emptyKw "github" "gitmate-test-user/test"
    ["[#123]"] = [] := by decide
example : getKeywordsIssues emptyKw "github" "own/rep"
    ["fubar/example#23", "#5"]
    = [("23", "fubar/example"), ("5", "fubar/example")] := by decide
example : getKeywordsIssues githubKwRe "github" "gitmate-test-user/test"
    ["Fixes #89 and also closes fubar/other#12"]
    = [("89", "gitmate-test-user/test"), ("12", "fubar/other")] := by decide

theorem mem_addPair_self (res : List (String × String)) (p : String × String) :
    p ∈ addPair res p := by
  unfold addPair
  by_cases hc : res.contains p = true
  · rw [if_pos hc]
    exact List.elem_iff.mp hc
  · rw [if_neg hc]
    simp

theorem mem_addPair_of_mem (res : List (String × String)) (p q : String × String)
    (h : q ∈ res) : q ∈ addPair res p := by
  unfold addPair
  by_cases hc : res.contains p = true
  · rw [if_pos hc]
    exact h
  · rw [if_neg hc]
    exact List.mem_append_left _ h

theorem processRef_mono (st : String × List (String × String)) (r : RefTuple)
    (q : String × String) (h : q ∈ st.2) : q ∈ (processRef st r).2 := by
  unfold processRef
  by_cases h2 : r.g2 ≠ ""
  · by_cases h34 : r.g3 ≠ "" ∧ r.g4 ≠ ""
    · simp only [if_pos h2, if_pos h34]
      exact mem_addPair_of_mem _ _ _ (mem_addPair_of_mem _ _ _ h)
    · simp only [if_pos h2, if_neg h34]
      exact mem_addPair_of_mem _ _ _ h
  · by_cases h34 : r.g3 ≠ "" ∧ r.g4 ≠ ""
    · simp only [if_neg h2, if_pos h34]
      exact mem_addPair_of_mem _ _ _ h
    · simp only [if_neg h2, if_neg h34]
      exact h

theorem processRefs_mono (refs : List RefTuple)
    (st : String × List (String × String)) (q : String × String)
    (h : q ∈ st.2) : q ∈ (processRefs st refs).2 := by
  induction refs generalizing st with
  | nil => exact h
  | cons r rest ih =>
      show q ∈ (processRefs (processRef st r) rest).2
      exact ih _ (processRef_mono st r q h)

theorem processRef_ctx_of_bare (st : String × List (String × String))
    (r : RefTuple) (h : r.g1 = "") : (processRef st r).1 = st.1 := by
  simp [processRef, h]

/-- A bare-number tuple in an all-bare list is attributed to the
incoming context. -/
theorem bare_attrib (refs : List RefTuple)
    (st : String × List (String × String))
    (hall : ∀ r ∈ refs, r.g1 = "") (b : RefTuple) (hb : b ∈ refs)
    (hb2 : b.g2 ≠ "") : (b.g2, st.1) ∈ (processRefs st refs).2 := by
  induction refs generalizing st with
  | nil => simp at hb
  | cons r rest ih =>
      show (b.g2, st.1) ∈ (processRefs (processRef st r) rest).2
      rcases List.mem_cons.mp hb with hb | hb
      · subst hb
        have hg1 : b.g1 = "" := hall b (List.mem_cons_self _ _)
        have hmem : (b.g2, st.1) ∈ (processRef st b).2 := by
          show (b.g2, st.1) ∈ (if b.g3 ≠ "" ∧ b.g4 ≠ ""
              then addPair (if b.g2 ≠ "" then addPair st.2
                (b.g2, if b.g1 ≠ "" then b.g1 else st.1) else st.2) (b.g4, b.g3)
              else (if b.g2 ≠ "" then addPair st.2
                (b.g2, if b.g1 ≠ "" then b.g1 else st.1) else st.2))
          have hctx : (if b.g1 ≠ "" then b.g1 else st.1) = st.1 := by
            simp [hg1]
          rw [hctx, if_pos hb2]
          by_cases h34 : b.g3 ≠ "" ∧ b.g4 ≠ ""
          · rw [if_pos h34]
            exact mem_addPair_of_mem _ _ _ (mem_addPair_self _ _)
          · rw [if_neg h34]
            exact mem_addPair_self _ _
        exact processRefs_mono rest _ _ hmem
      · have hctx := processRef_ctx_of_bare st r (hall r (List.mem_cons_self _ _))
        have := ih (processRef st r) (fun x hx => hall x (List.mem_cons_of_mem _ hx)) hb
        rw [hctx] at this
        exact this

theorem processRefs_append (st : String × List (String × String))
    (l1 l2 : List RefTuple) :
    processRefs st (l1 ++ l2) = processRefs (processRefs st l1) l2 := by
  simp [processRefs, List.foldl_append]

/-- C2: in the reference loop of `get_keywords_issues`, an explicit
owner/repo capture (`g1 ≠ ''`) becomes the current-repository context
attributing every subsequent bare `#NNN` capture (until the next
explicit one); with no explicit capture the context is the initial
one (the commit's own repository full name); and URL-form captures
(`g1 = ''`, `g3`/`g4` set) leave the context unchanged and contribute
their own `(number, owner/repo)` pair, independent of the context. -/
theorem claim_C2_carry_over_context :
    (∀ (c0 : String) (res : List (String × String)) (pre : List RefTuple)
       (r : RefTuple) (mid post : List RefTuple),
      r.g1 ≠ "" → (∀ x ∈ mid, x.g1 = "") →
      ∀ b ∈ mid, b.g2 ≠ "" →
      (b.g2, r.g1) ∈ (processRefs (c0, res) (pre ++ r :: (mid ++ post))).2)
    ∧ (∀ (c0 : String) (res : List (String × String)) (refs : List RefTuple),
      (∀ x ∈ refs, x.g1 = "") → ∀ b ∈ refs, b.g2 ≠ "" →
      (b.g2, c0) ∈ (processRefs (c0, res) refs).2)
    ∧ (∀ (st : String × List (String × String)) (r : RefTuple),
      r.g1 = "" → (processRef st r).1 = st.1
        ∧ (r.g3 ≠ "" → r.g4 ≠ "" → (r.g4, r.g3) ∈ (processRef st r).2)) := by
  refine ⟨?_, ?_, ?_⟩
  · intro c0 res pre r mid post hr hall b hb hb2
    rw [show pre ++ r :: (mid ++ post) = (pre ++ [r]) ++ mid ++ post by simp]
    rw [processRefs_append, processRefs_append]
    apply processRefs_mono
    have hctx : (processRefs (c0, res) (pre ++ [r])).1 = r.g1 := by
      rw [processRefs_append]
      show (processRef (processRefs (c0, res) pre) r).1 = r.g1
      simp [processRef, hr]
    rw [← hctx]
    exact bare_attrib mid _ hall b hb hb2
  · intro c0 res refs hall b hb hb2
    exact bare_attrib refs (c0, res) hall b hb hb2
  · intro st r hr
    refine ⟨processRef_ctx_of_bare st r hr, fun h3 h4 => ?_⟩
    show (r.g4, r.g3) ∈ (if r.g3 ≠ "" ∧ r.g4 ≠ ""
        then addPair (if r.g2 ≠ "" then addPair st.2
          (r.g2, if r.g1 ≠ "" then r.g1 else st.1) else st.2) (r.g4, r.g3)
        else (if r.g2 ≠ "" then addPair st.2
          (r.g2, if r.g1 ≠ "" then r.g1 else st.1) else st.2))
    rw [if_pos (And.intro h3 h4)]
    exact mem_addPair_self _ _

/-- C2 witness: concrete captures — `fubar/example#23` sets the context
used by a later bare `#5`; a bare `#7` with no prior explicit capture
uses the initial repository; a URL capture keeps the context and adds
its own pair. -/
theorem claim_C2_carry_over_context_witness :
    (("5", "fubar/example") ∈ (processRefs ("own/rep", [])
      ([] ++ (⟨"fubar/example", "23", "", ""⟩ : RefTuple) ::
        ([⟨"", "5", "", ""⟩] ++ []))).2)
    ∧ (("7", "own/rep") ∈ (processRefs ("own/rep", []) [⟨"", "7", "", ""⟩]).2)
    ∧ ((processRef ("own/rep", []) ⟨"", "", "o/r", "9"⟩).1 = "own/rep"
      ∧ ("9", "o/r") ∈ (processRef ("own/rep", []) ⟨"", "", "o/r", "9"⟩).2) :=
  ⟨claim_C2_carry_over_context.1 "own/rep" [] [] ⟨"fubar/example", "23", "", ""⟩
      [⟨"", "5", "", ""⟩] [] (by decide) (by decide) ⟨"", "5", "", ""⟩
      (by decide) (by decide),
   claim_C2_carry_over_context.2.1 "own/rep" [] [⟨"", "7", "", ""⟩]
      (by decide) ⟨"", "7", "", ""⟩ (by decide) (by decide),
   ⟨(claim_C2_carry_over_context.2.2 ("own/rep", []) ⟨"", "", "o/r", "9"⟩ rfl).1,
    (claim_C2_carry_over_context.2.2 ("own/rep", []) ⟨"", "", "o/r", "9"⟩ rfl).2
      (by decide) (by decide)⟩⟩

/-- C8 counterexample: the empty-keyword mentions extraction on a body
list containing only `'#123ds'` is NOT empty — the joint regex matches
the substring `'#123'` (nothing anchors the end of the number against
the `ds` suffix when no keyword is required), so the claim fails for
the mentions half. -/
theorem claim_C8_counterexample :
    getKeywordsIssues emptyKw "github" "gitmate-test-user/test" ["#123ds"]
      = [("123", "gitmate-test-user/test")]
    ∧ getKeywordsIssues emptyKw "github" "gitmate-test-user/test" ["#123ds"]
      ≠ ([] : List (String × String)) := by
  constructor
  · decide
  · decide

/-- C8 amended: on `['#123ds']` the closes-style keyword-anchored
extraction (GitHub keywords) returns the empty set — no keyword
precedes the reference — but the empty-keyword mentions extraction
still extracts `('123', own-repo)` despite the suffix. -/
theorem claim_C8_suffix_exclusion :
    getKeywordsIssues githubKwRe "github" "gitmate-test-user/test" ["#123ds"]
      = ([] : List (String × String))
    ∧ getKeywordsIssues emptyKw "github" "gitmate-test-user/test" ["#123ds"]
      = [("123", "gitmate-test-user/test")] := by
  constructor
  · decide
  · decide

/-- C10: `repo_name` is initialized once, before the loop over
`body_list`, so the context carried out of an earlier body string
attributes bare `#NNN` references in a later body string of the same
call; concretely, `['fubar/example#23', '#5']` attributes `#5` to
`fubar/example` even though the explicit reference is in the previous
body string. -/
theorem claim_C10_carry_across_bodies :
    (∀ (kw : RE) (hoster r0 b1 b2 : String),
      (∀ r ∈ refsOfBody kw hoster b2, r.g1 = "") →
      ∀ b ∈ refsOfBody kw hoster b2, b.g2 ≠ "" →
      (b.g2, (processRefs (r0, []) (refsOfBody kw hoster b1)).1)
        ∈ getKeywordsIssues kw hoster r0 [b1, b2])
    ∧ getKeywordsIssues emptyKw "github" "own/rep" ["fubar/example#23", "#5"]
      = [("23", "fubar/example"), ("5", "fubar/example")] := by
  constructor
  · intro kw hoster r0 b1 b2 hall b hb hb2
    show (b.g2, (processRefs (r0, []) (refsOfBody kw hoster b1)).1)
      ∈ (processRefs (processRefs (r0, []) (refsOfBody kw hoster b1))
          (refsOfBody kw hoster b2)).2
    exact bare_attrib _ _ hall b hb hb2
  · decide

/-- C10 witness: the general carry-over statement applied to the
concrete pair of body strings. -/
theorem claim_C10_carry_across_bodies_witness :
    ("5", (processRefs (("own/rep" : String), ([] : List (String × String)))
        (refsOfBody emptyKw "github" "fubar/example#23")).1)
      ∈ getKeywordsIssues emptyKw "github" "own/rep" ["fubar/example#23", "#5"] :=
  claim_C10_carry_across_bodies.1 emptyKw "github" "own/rep"
    "fubar/example#23" "#5" (by decide) ⟨"", "5", "", ""⟩ (by decide) (by decide)
